import Mathlib

/-!
# Verification of `mnist_mask.py` (simple_mask_rcnn)

Shallow embedding of the core scene-composition and glyph-extraction
algorithms of `mnist_mask.py`:

* `do_boxes_intersect` — the box-intersection predicate (lines 462-476);
* `valid_box_anchors` / `random_anchor` — placement (lines 440-459);
* `place_letters` — the glyph-placement loop of `create_random_image`
  (lines 316-340), abstracted over the sequence of scaled glyph sizes and
  over the random choices (modelled as an index into the candidate list,
  which is how `random.choice` behaves);
* `valid_colors` / `random_color` — the memoized color sampler
  (lines 28-36 and 374-387);
* `max_bounding_box` — the contour bounding-box union (lines 76-99),
  taking the list of per-contour bounding rectangles that
  `cv2.boundingRect` would return;
* `scene_alpha` — the shared alpha blend weight (line 310), with Python
  floats idealized as rationals.

Python integers are modelled as `Int`; a Python exception is an explicit
`PyError` value.
-/

namespace MnistMask

/-- A box as used throughout the source: `((x, y), (w, h))`,
top-left corner and width/height, all Python ints. -/
abbrev Box : Type := (Int × Int) × (Int × Int)

/-- Python errors raised (or demanded by the spec) in the modelled code.
`indexError` is what `random.choice([])` and `contours[0]` raise;
`valueError` is what `random.randint(a, b)` raises when `b < a`;
the remaining constructors are the distinct error kinds the spec asks for,
which the source never raises. -/
inductive PyError where
  | indexError
  | valueError
  | noValidAnchorError
  | noContoursError
deriving DecidableEq, Repr

/-- The body of the loop of `do_boxes_intersect` for a single other box:
`((other_x <= x <= other_x + other_w) or (x <= other_x <= x + w)) and
 ((other_y <= y <= other_y + other_h) or (y <= other_y <= y + h))`. -/
def boxes_hit (box other : Box) : Bool :=
  let x := box.1.1; let y := box.1.2; let w := box.2.1; let h := box.2.2
  let ox := other.1.1; let oy := other.1.2; let ow := other.2.1; let oh := other.2.2
  ((decide (ox ≤ x) && decide (x ≤ ox + ow) || (decide (x ≤ ox) && decide (ox ≤ x + w))) &&
   (decide (oy ≤ y) && decide (y ≤ oy + oh) || (decide (y ≤ oy) && decide (oy ≤ y + h))))

/-- `do_boxes_intersect(box, *other_boxes)` (lines 462-476): the loop
returns `True` at the first other box that hits, else `False`. -/
def do_boxes_intersect (box : Box) (other_boxes : List Box) : Bool :=
  other_boxes.any (fun b => boxes_hit box b)

/-- Python `range(0, n)` as a list of ints (empty when `n ≤ 0`). -/
def range0 (n : Int) : List Int :=
  (List.range n.toNat).map (fun i => (Nat.cast i : Int))

/-- `random.choice(l)` modelled with an explicit random index `k`:
raises `IndexError` on an empty sequence, otherwise returns the element at
`k % len(l)` (every element is reachable; uniform for uniform `k`). -/
def py_choice {α : Type} (l : List α) (k : Nat) : Except PyError α :=
  match l with
  | [] => .error .indexError
  | a :: rest => .ok ((a :: rest).get ⟨k % (rest.length + 1), Nat.mod_lt _ (Nat.succ_pos _)⟩)

/-- The candidate-anchor list comprehension of `random_anchor`
(lines 454-458):
`[(x, y) for x in range(0, xdimension-w) for y in range(0, ydimension-h)
  if not do_boxes_intersect(((x, y), (w, h)), *occupied_boxes)]`. -/
def valid_box_anchors (w h xdimension ydimension : Int) (occupied_boxes : List Box) :
    List (Int × Int) :=
  (range0 (xdimension - w)).flatMap (fun x =>
    ((range0 (ydimension - h)).filter
        (fun y => !(do_boxes_intersect ((x, y), (w, h)) occupied_boxes))).map
      (fun y => (x, y)))

/-- `random_anchor` (lines 440-459).  The `valid_box_anchors` parameter is
never passed by the callers modelled here, so the comprehension above is
always computed.  The branch without occupied boxes draws each coordinate
with `random.randint` (inclusive bounds); both draws are decoded from the
single random seed `k`. -/
def random_anchor (w h xdimension ydimension : Int) (occupied_boxes : Option (List Box))
    (k : Nat) : Except PyError (Int × Int) :=
  match occupied_boxes with
  | none =>
      if xdimension - w < 0 ∨ ydimension - h < 0 then
        .error .valueError
      else
        let nx := (xdimension - w).toNat + 1
        let ny := (ydimension - h).toNat + 1
        .ok (((k % nx : Nat) : Int), (((k / nx) % ny : Nat) : Int))
  | some occ => py_choice (valid_box_anchors w h xdimension ydimension occ) k

/-- One placed glyph: anchor `(x, y)` and scaled size `(w, h)`.  The match
recorded for it has bounding box `((x, y), (x + w, y + h))` (line 339). -/
structure Placement where
  x : Int
  y : Int
  w : Int
  h : Int
deriving DecidableEq, Repr

/-- The bounding box recorded in the match dict (line 339). -/
def bounding_box (p : Placement) : Box :=
  ((p.x, p.y), (p.x + p.w, p.y + p.h))

/-- The candidate box handed to `do_boxes_intersect` during placement
(line 458): `((x, y), (w, h))`. -/
def size_box (p : Placement) : Box :=
  ((p.x, p.y), (p.w, p.h))

/-- The occupied region appended after a placement (line 337):
`((x + max_overlap, y + max_overlap), (w - 2*max_overlap, h - 2*max_overlap))`. -/
def occupied_box (max_overlap : Int) (p : Placement) : Box :=
  ((p.x + max_overlap, p.y + max_overlap), (p.w - 2 * max_overlap, p.h - 2 * max_overlap))

/-- The letters loop of `create_random_image` (lines 316-340), restricted
to its placement behaviour: for each glyph size, ask `random_anchor` for a
position against the occupied boxes accumulated so far, then append the
deflated occupied region.  `ks` supplies the random choice for each call;
an unhandled exception (or exhausted randomness) aborts the scene
(`none`). -/
def place_letters (xdimension ydimension max_overlap : Int) :
    List (Int × Int) → List Nat → List Box → Option (List Placement)
  | [], _, _ => some []
  | _ :: _, [], _ => none
  | (w, h) :: sizes, k :: ks, occupied_boxes =>
    match random_anchor w h xdimension ydimension (some occupied_boxes) k with
    | .error _ => none
    | .ok (x, y) =>
      match place_letters xdimension ydimension max_overlap sizes ks
          (occupied_boxes ++ [occupied_box max_overlap ⟨x, y, w, h⟩]) with
      | none => none
      | some ps => some (⟨x, y, w, h⟩ :: ps)

/-- The placement part of a whole scene: `create_random_image` starts its
loop with `occupied_boxes = []` (line 316). -/
def create_random_image_letters (xdimension ydimension max_overlap : Int)
    (sizes : List (Int × Int)) (ks : List Nat) : Option (List Placement) :=
  place_letters xdimension ydimension max_overlap sizes ks []

/-- `valid_colors(max_brightness)` (lines 28-32): all `(r, g, b)` with each
channel drawn from `range(0, 255)` and `r + g + b < max_brightness`, in
generator order (`r` outermost). -/
def valid_colors (max_brightness : Int) : List (Nat × Nat × Nat) :=
  (List.range 255).flatMap (fun r =>
    (List.range 255).flatMap (fun g =>
      ((List.range 255).filter
          (fun b => decide (((r + g + b : Nat) : Int) < max_brightness))).map
        (fun b => (r, g, b))))

/-- The `VALID_COLORS` dict, mapping a `max_brightness` value to its list
of valid colors. -/
abbrev ColorCache : Type := List (Int × List (Nat × Nat × Nat))

/-- The initial `VALID_COLORS` (lines 33-36): precomputed for
`MAX_BRIGHTNESS = 200`. -/
def VALID_COLORS_init : ColorCache := [(200, valid_colors 200)]

/-- `random_color(max_brightness)` (lines 374-387): if the brightness is
not yet a key of the cache, compute and store its valid-color list; then
`random.choice` from the (now cached) list.  Returns the chosen color (or
the raised error) together with the updated cache. -/
def random_color (max_brightness : Int) (cache : ColorCache) (k : Nat) :
    Except PyError (Nat × Nat × Nat) × ColorCache :=
  match List.lookup max_brightness cache with
  | some colors => (py_choice colors k, cache)
  | none =>
      let colors := valid_colors max_brightness
      (py_choice colors k, (max_brightness, colors) :: cache)

/-- Every entry of the cache maps a brightness to exactly its valid-color
list (true of `VALID_COLORS_init` and preserved by `random_color`). -/
def CacheWF (cache : ColorCache) : Prop :=
  ∀ e ∈ cache, e.2 = valid_colors e.1

/-- A contour's axis-aligned bounding rectangle, as returned by
`cv2.boundingRect`: `(x, y, w, h)`. -/
structure Rect where
  x : Int
  y : Int
  w : Int
  h : Int
deriving DecidableEq, Repr

/-- The accumulation step of the loop in `max_bounding_box` (lines 93-96):
`boxes_xmin, boxes_ymin = min(x, boxes_xmin), min(y, boxes_ymin)`;
`boxes_xmax, boxes_ymax = max(x + w, boxes_xmax), max(y + h, boxes_ymax)`. -/
def mbb_step (acc : (Int × Int) × (Int × Int)) (r : Rect) : (Int × Int) × (Int × Int) :=
  ((min r.x acc.1.1, min r.y acc.1.2), (max (r.x + r.w) acc.2.1, max (r.y + r.h) acc.2.2))

/-- `max_bounding_box` (lines 76-99), taking the bounding rectangles of
the contours `cv2.findContours` would report.  `contours[0]` on an empty
contour list raises `IndexError`; otherwise the first contour's rectangle
seeds the accumulator and the loop runs over all contours. -/
def max_bounding_box (rects : List Rect) : Except PyError ((Int × Int) × (Int × Int)) :=
  match rects with
  | [] => .error .indexError
  | r0 :: _ =>
      .ok (rects.foldl mbb_step ((r0.x, r0.y), (r0.x + r0.w, r0.y + r0.h)))

/-- The EXACT real-arithmetic value of line 310's expression
`alpha = random.random() * max_alpha + (1 - max_alpha)`, with `r` the
value of `random.random()`.  The program evaluates this expression in
IEEE-754 binary64, which rounds each operation; that evaluation is
modelled separately by `scene_alpha_float` below. -/
def scene_alpha (max_alpha r : ℚ) : ℚ :=
  r * max_alpha + (1 - max_alpha)

/-- Number of binary digits of `n`, with explicit structural fuel so that
kernel evaluation (`decide`) works; any `fuel` of at least the bit count
gives the true value, and `fuel = 200` covers every quantity arising
below (all are below `2 ^ 200`). -/
def bit_len : Nat → Nat → Nat
  | 0, _ => 0
  | fuel + 1, n => if n = 0 then 0 else bit_len fuel (n / 2) + 1

/-- A dyadic rational `n * 2 ^ e`: the exact form of every finite
IEEE-754 binary64 value.  Overflow, underflow and subnormals cannot occur
at the magnitudes modelled here (all values lie around `[0.1, 2]`). -/
abbrev Dyadic : Type := Int × Int

/-- The rational value `n * 2 ^ e` of a dyadic. -/
def dval (p : Dyadic) : ℚ :=
  (p.1 : ℚ) * (2 : ℚ) ^ p.2

/-- Exact product of dyadics. -/
def dmul (p q : Dyadic) : Dyadic :=
  (p.1 * q.1, p.2 + q.2)

/-- Exact sum of dyadics (align to the smaller exponent). -/
def dadd (p q : Dyadic) : Dyadic :=
  let e := min p.2 q.2
  (p.1 * 2 ^ (p.2 - e).toNat + q.1 * 2 ^ (q.2 - e).toNat, e)

/-- Exact difference of dyadics (align to the smaller exponent). -/
def dsub (p q : Dyadic) : Dyadic :=
  let e := min p.2 q.2
  (p.1 * 2 ^ (p.2 - e).toNat - q.1 * 2 ^ (q.2 - e).toNat, e)

/-- IEEE-754 binary64 rounding in the normal range: round the exact
dyadic to 53 significant bits, round-to-nearest with ties to even.  A
mantissa of at most 53 bits is returned unchanged (it is representable);
otherwise the excess `s` low bits are rounded off: up when the cut-off
part exceeds half an ulp, down when below, and to the even mantissa on an
exact tie. -/
def fl64 (p : Dyadic) : Dyadic :=
  let a := p.1.natAbs
  let b := bit_len 200 a
  if b ≤ 53 then p
  else
    let s := b - 53
    let q := a / 2 ^ s
    let r := a % 2 ^ s
    let half := 2 ^ (s - 1)
    let q' := if half < r ∨ (r = half ∧ q % 2 = 1) then q + 1 else q
    (if p.1 < 0 then -(q' : Int) else (q' : Int), p.2 + s)

/-- Line 310 as the program computes it, in IEEE-754 binary64: `ma` is
the double value of the `max_alpha` argument, `r` the double returned by
`random.random()`; each of the three operations produces the correctly
rounded result of the exact operation on its operands, exactly as CPython
float arithmetic does. -/
def scene_alpha_float (ma r : Dyadic) : Dyadic :=
  fl64 (dadd (fl64 (dmul r ma)) (fl64 (dsub (1, 0) ma)))

/-- Modelled from the spec's words (§4.4), for comparison with
`valid_box_anchors`: "enumerate every integer anchor (x,y) with x in
[0, canvas_width-box_width], y in [0, canvas_height-box_height]"
(both ranges inclusive) "keep only anchors where the candidate box
(x,y,box_width,box_height) does not intersect any occupied region". -/
def spec_candidate_anchors (w h xdimension ydimension : Int) (occupied_boxes : List Box) :
    List (Int × Int) :=
  (range0 (xdimension - w + 1)).flatMap (fun x =>
    ((range0 (ydimension - h + 1)).filter
        (fun y => !(do_boxes_intersect ((x, y), (w, h)) occupied_boxes))).map
      (fun y => (x, y)))

/-- The set of pixels covered by a box `((x, y), (w, h))`, reading it as
the closed rectangle from `(x, y)` to `(x + w, y + h)` — the reading under
which `do_boxes_intersect` is an overlap test. -/
def box_points (b : Box) : Set (Int × Int) :=
  { p : Int × Int |
      b.1.1 ≤ p.1 ∧ p.1 ≤ b.1.1 + b.2.1 ∧ b.1.2 ≤ p.2 ∧ p.2 ≤ b.1.2 + b.2.2 }

/-! ## Basic lemmas about the embedded definitions -/

theorem mem_range0 {n a : Int} : a ∈ range0 n ↔ 0 ≤ a ∧ a < n := by
  simp only [range0, List.mem_map, List.mem_range]
  constructor
  · rintro ⟨i, hi, rfl⟩
    omega
  · intro h
    exact ⟨a.toNat, by omega, by omega⟩

theorem boxes_hit_iff {box other : Box} :
    boxes_hit box other = true ↔
      ((other.1.1 ≤ box.1.1 ∧ box.1.1 ≤ other.1.1 + other.2.1) ∨
        (box.1.1 ≤ other.1.1 ∧ other.1.1 ≤ box.1.1 + box.2.1)) ∧
      ((other.1.2 ≤ box.1.2 ∧ box.1.2 ≤ other.1.2 + other.2.2) ∨
        (box.1.2 ≤ other.1.2 ∧ other.1.2 ≤ box.1.2 + box.2.2)) := by
  simp [boxes_hit, Bool.and_eq_true, Bool.or_eq_true, decide_eq_true_eq]

theorem do_boxes_intersect_eq_false_iff {box : Box} {others : List Box} :
    do_boxes_intersect box others = false ↔ ∀ b ∈ others, boxes_hit box b = false := by
  simp [do_boxes_intersect, List.any_eq_false]

theorem boxes_hit_symm (a b : Box) : boxes_hit a b = boxes_hit b a := by
  rw [Bool.eq_iff_iff, boxes_hit_iff, boxes_hit_iff]
  tauto

theorem py_choice_mem {α : Type} {l : List α} {k : Nat} {a : α}
    (h : py_choice l k = .ok a) : a ∈ l := by
  cases l with
  | nil => simp [py_choice] at h
  | cons x rest =>
    simp only [py_choice, Except.ok.injEq] at h
    subst h
    exact List.get_mem _ _ _

theorem random_anchor_some_ok_mem {w h xd yd : Int} {occ : List Box} {k : Nat}
    {xy : Int × Int} (hok : random_anchor w h xd yd (some occ) k = .ok xy) :
    xy ∈ valid_box_anchors w h xd yd occ :=
  py_choice_mem hok

theorem mem_valid_box_anchors {w h xd yd x y : Int} {occ : List Box} :
    (x, y) ∈ valid_box_anchors w h xd yd occ ↔
      0 ≤ x ∧ x < xd - w ∧ 0 ≤ y ∧ y < yd - h ∧
      do_boxes_intersect ((x, y), (w, h)) occ = false := by
  simp only [valid_box_anchors, List.mem_flatMap, List.mem_map, List.mem_filter,
    mem_range0, Bool.not_eq_true', Prod.mk.injEq]
  constructor
  · rintro ⟨x', hx', y', ⟨hy', hint⟩, rfl, rfl⟩
    exact ⟨hx'.1, hx'.2, hy'.1, hy'.2, hint⟩
  · rintro ⟨hx0, hx1, hy0, hy1, hint⟩
    exact ⟨x, ⟨hx0, hx1⟩, y, ⟨⟨hy0, hy1⟩, hint⟩, rfl, rfl⟩

theorem range0_nodup {n : Int} : (range0 n).Nodup :=
  (List.nodup_range _).map (fun a b hab => by omega)

theorem valid_box_anchors_nodup {w h xd yd : Int} {occ : List Box} :
    (valid_box_anchors w h xd yd occ).Nodup := by
  rw [valid_box_anchors, List.nodup_flatMap]
  refine ⟨fun x _ => ?_, ?_⟩
  · exact (range0_nodup.filter _).map (fun a b hab => congrArg Prod.snd hab)
  · refine range0_nodup.imp_of_mem (fun hx1 hx2 hne => ?_)
    intro p hp1 hp2
    simp only [List.mem_map, List.mem_filter] at hp1 hp2
    obtain ⟨y1, _, rfl⟩ := hp1
    obtain ⟨y2, _, h2⟩ := hp2
    exact hne (congrArg Prod.fst h2.symm)

theorem do_boxes_intersect_singleton {a b : Box} :
    do_boxes_intersect a [b] = boxes_hit a b := by
  simp [do_boxes_intersect]

/-- Shrinking the candidate box by a nonnegative margin on each side (with
the glyph at least `2 * m` wide and high, so the shrunk widths stay
nonnegative) cannot create a hit that the full candidate box did not
have. -/
theorem boxes_hit_deflate {m : Int} (hm : 0 ≤ m) {p : Placement}
    (hpw : 2 * m ≤ p.w) (hph : 2 * m ≤ p.h) {b : Box}
    (hfull : boxes_hit (size_box p) b = false) :
    boxes_hit (occupied_box m p) b = false := by
  cases hx : boxes_hit (occupied_box m p) b with
  | false => rfl
  | true =>
    exfalso
    rw [Bool.eq_false_iff] at hfull
    apply hfull
    rw [boxes_hit_iff] at hx ⊢
    rcases p with ⟨px, py, pw, ph⟩
    rcases b with ⟨⟨bx, bY⟩, bw, bh⟩
    simp only [size_box, occupied_box] at *
    omega

/-- Soundness of the placement loop: every placement comes from a valid
anchor, so it carries its glyph size, lies strictly inside the canvas,
avoids all initially occupied boxes, and every later placement's full
candidate box avoids every earlier placement's recorded occupied
region. -/
theorem place_letters_invariant {xd yd m : Int} (sizes : List (Int × Int))
    (ks : List Nat) (occ : List Box) (ps : List Placement)
    (hpl : place_letters xd yd m sizes ks occ = some ps) :
    (∀ p ∈ ps, (p.w, p.h) ∈ sizes) ∧
    (∀ p ∈ ps, 0 ≤ p.x ∧ p.x + p.w < xd ∧ 0 ≤ p.y ∧ p.y + p.h < yd) ∧
    (∀ p ∈ ps, ∀ b ∈ occ, boxes_hit (size_box p) b = false) ∧
    List.Pairwise (fun p q => boxes_hit (size_box q) (occupied_box m p) = false) ps := by
  induction sizes generalizing ks occ ps with
  | nil =>
    simp only [place_letters, Option.some.injEq] at hpl
    subst hpl
    simp
  | cons sz sizes ih =>
    rcases sz with ⟨w, h⟩
    cases ks with
    | nil => simp [place_letters] at hpl
    | cons k ks =>
      cases hra : random_anchor w h xd yd (some occ) k with
      | error e => simp [place_letters, hra] at hpl
      | ok xy =>
        rcases xy with ⟨x, y⟩
        cases hrec : place_letters xd yd m sizes ks
            (occ ++ [occupied_box m ⟨x, y, w, h⟩]) with
        | none => simp [place_letters, hra, hrec] at hpl
        | some ps' =>
          simp only [place_letters, hra, hrec, Option.some.injEq] at hpl
          subst hpl
          have hmem := random_anchor_some_ok_mem hra
          rw [mem_valid_box_anchors] at hmem
          obtain ⟨hx0, hx1, hy0, hy1, hint⟩ := hmem
          have hint' : ∀ b ∈ occ, boxes_hit (size_box ⟨x, y, w, h⟩) b = false := by
            rw [← do_boxes_intersect_eq_false_iff]
            exact hint
          obtain ⟨ih1, ih2, ih3, ih4⟩ := ih ks _ ps' hrec
          refine ⟨?_, ?_, ?_, ?_⟩
          · intro p hp
            rcases List.mem_cons.mp hp with rfl | hp'
            · exact List.mem_cons_self _ _
            · exact List.mem_cons_of_mem _ (ih1 p hp')
          · intro p hp
            rcases List.mem_cons.mp hp with rfl | hp'
            · exact ⟨hx0, show x + w < xd by omega, hy0, show y + h < yd by omega⟩
            · exact ih2 p hp'
          · intro p hp b hb
            rcases List.mem_cons.mp hp with rfl | hp'
            · exact hint' b hb
            · exact ih3 p hp' b (List.mem_append_left _ hb)
          · refine List.Pairwise.cons (fun q hq => ?_) ih4
            exact ih3 q hq (occupied_box m ⟨x, y, w, h⟩)
              (List.mem_append_right _ (List.mem_singleton_self _))

/-! ## Claim C9: placed bounding boxes lie within the canvas -/

/-- C9 (confirmed): for every successfully generated scene, every match's
bounding box `((x, y), (x + w, y + h))` lies entirely within the canvas:
`0 ≤ x`, `x + w ≤ canvas_width`, `0 ≤ y`, `y + h ≤ canvas_height`
(in fact strictly, since the anchor ranges exclude their upper ends). -/
theorem C9_boxes_within_canvas {xd yd m : Int} {sizes : List (Int × Int)}
    {ks : List Nat} {ps : List Placement}
    (hpl : create_random_image_letters xd yd m sizes ks = some ps) :
    ∀ p ∈ ps, 0 ≤ (bounding_box p).1.1 ∧ (bounding_box p).2.1 ≤ xd ∧
      0 ≤ (bounding_box p).1.2 ∧ (bounding_box p).2.2 ≤ yd := by
  have hpl' : place_letters xd yd m sizes ks [] = some ps := hpl
  have hbounds := (place_letters_invariant sizes ks [] ps hpl').2.1
  intro p hp
  have hb := hbounds p hp
  exact ⟨hb.1, (show p.x + p.w ≤ xd by omega), hb.2.2.1,
    (show p.y + p.h ≤ yd by omega)⟩

set_option maxRecDepth 8000 in
/-- Witness for C9 on a concrete scene: canvas 30×30, margin 1, two
10×10 glyphs. -/
theorem C9_boxes_within_canvas_witness :
    create_random_image_letters 30 30 1 [(10, 10), (10, 10)] [0, 0] =
      some [⟨0, 0, 10, 10⟩, ⟨0, 10, 10, 10⟩] ∧
    ∀ p ∈ [(⟨0, 0, 10, 10⟩ : Placement), ⟨0, 10, 10, 10⟩],
      0 ≤ (bounding_box p).1.1 ∧ (bounding_box p).2.1 ≤ 30 ∧
      0 ≤ (bounding_box p).1.2 ∧ (bounding_box p).2.2 ≤ 30 :=
  ⟨by decide, @C9_boxes_within_canvas 30 30 1 [(10, 10), (10, 10)] [0, 0]
    [⟨0, 0, 10, 10⟩, ⟨0, 10, 10, 10⟩] (by decide)⟩

/-! ## Claim C1: pairwise non-intersection of recorded occupied regions -/

set_option maxRecDepth 8000 in
/-- C1 counterexample: a scene on a 21×31 canvas with margin
`max_overlap = 5`, one 20×30 glyph and one 4×30 glyph (narrower than
`2 * max_overlap`, so its recorded region has negative width).  Both
placements are produced by `create_random_image`'s loop, yet their
recorded margin-adjusted occupied regions DO satisfy the intersection
predicate, refuting the claim as stated. -/
theorem C1_counterexample :
    create_random_image_letters 21 31 5 [(20, 30), (4, 30)] [0, 0] =
      some [⟨0, 0, 20, 30⟩, ⟨0, 0, 4, 30⟩] ∧
    do_boxes_intersect (occupied_box 5 ⟨0, 0, 4, 30⟩)
      [occupied_box 5 ⟨0, 0, 20, 30⟩] = true := by
  decide

/-- C1 (corrected): provided the margin is nonnegative and every glyph's
scaled width and height are at least `2 * max_overlap` (so no recorded
region degenerates to negative size), the recorded occupied regions of any
two matches in the same scene do not satisfy the intersection predicate,
in either argument order. -/
theorem C1_amended {xd yd m : Int} {sizes : List (Int × Int)} {ks : List Nat}
    {ps : List Placement} (hm : 0 ≤ m)
    (hsizes : ∀ s ∈ sizes, 2 * m ≤ s.1 ∧ 2 * m ≤ s.2)
    (hpl : create_random_image_letters xd yd m sizes ks = some ps) :
    List.Pairwise (fun p q =>
      do_boxes_intersect (occupied_box m p) [occupied_box m q] = false ∧
      do_boxes_intersect (occupied_box m q) [occupied_box m p] = false) ps := by
  have hpl' : place_letters xd yd m sizes ks [] = some ps := hpl
  obtain ⟨h1, _, _, h4⟩ := place_letters_invariant sizes ks [] ps hpl'
  refine h4.imp_of_mem ?_
  intro p q hp hq hfull
  have hq2 := hsizes _ (h1 q hq)
  have hdefl : boxes_hit (occupied_box m q) (occupied_box m p) = false :=
    boxes_hit_deflate hm hq2.1 hq2.2 hfull
  constructor
  · rw [do_boxes_intersect_singleton, boxes_hit_symm]
    exact hdefl
  · rw [do_boxes_intersect_singleton]
    exact hdefl

set_option maxRecDepth 8000 in
/-- Witness for C1 (corrected) on a concrete scene where all glyphs are at
least `2 * max_overlap` wide and high. -/
theorem C1_amended_witness :
    (0 : Int) ≤ 1 ∧
    (∀ s ∈ [((10 : Int), (10 : Int)), (10, 10)], 2 * 1 ≤ s.1 ∧ 2 * 1 ≤ s.2) ∧
    create_random_image_letters 30 30 1 [(10, 10), (10, 10)] [0, 0] =
      some [⟨0, 0, 10, 10⟩, ⟨0, 10, 10, 10⟩] ∧
    List.Pairwise (fun p q =>
      do_boxes_intersect (occupied_box 1 p) [occupied_box 1 q] = false ∧
      do_boxes_intersect (occupied_box 1 q) [occupied_box 1 p] = false)
      [(⟨0, 0, 10, 10⟩ : Placement), ⟨0, 10, 10, 10⟩] :=
  ⟨by decide, by decide, by decide,
    @C1_amended 30 30 1 [(10, 10), (10, 10)] [0, 0]
      [⟨0, 0, 10, 10⟩, ⟨0, 10, 10, 10⟩] (by decide) (by decide) (by decide)⟩

/-! ## Claim C3: the recorded occupied region is deflated, not inflated -/

/-- C3 counterexample: in a concrete scene (canvas 30×30, margin
`max_overlap = 5`, one 20×20 glyph placed at `(0, 0)`), the recorded
occupied region is `((5, 5), (10, 10))`, which does not cover the claimed
inflated region from `(x - m, y - m) = (-5, -5)` to
`(x + w + m, y + h + m) = (25, 25)`. -/
theorem C3_counterexample :
    create_random_image_letters 30 30 5 [(20, 20)] [0] = some [⟨0, 0, 20, 20⟩] ∧
    occupied_box 5 ⟨0, 0, 20, 20⟩ = ((5, 5), (10, 10)) ∧
    ¬((occupied_box 5 ⟨0, 0, 20, 20⟩).1.1 ≤ 0 - 5 ∧
      (occupied_box 5 ⟨0, 0, 20, 20⟩).1.2 ≤ 0 - 5 ∧
      0 + 20 + 5 ≤ (occupied_box 5 ⟨0, 0, 20, 20⟩).1.1 +
        (occupied_box 5 ⟨0, 0, 20, 20⟩).2.1 ∧
      0 + 20 + 5 ≤ (occupied_box 5 ⟨0, 0, 20, 20⟩).1.2 +
        (occupied_box 5 ⟨0, 0, 20, 20⟩).2.2) := by
  decide

/-- C3 (corrected): the OccupiedRegion recorded for future placements is
the glyph's bounding box DEFLATED by the margin `m = max_overlap` on all
sides — it spans exactly `(x + m, y + m)` to `(x + w - m, y + h - m)` —
and each later placement's candidate box avoids only this deflated region,
so future glyph boxes may overlap this glyph's box by up to `m` pixels per
side rather than keeping a minimum gap. -/
theorem C3_amended {xd yd m : Int} {sizes : List (Int × Int)} {ks : List Nat}
    {ps : List Placement}
    (hpl : create_random_image_letters xd yd m sizes ks = some ps) :
    (∀ p ∈ ps,
      (occupied_box m p).1.1 = p.x + m ∧
      (occupied_box m p).1.2 = p.y + m ∧
      (occupied_box m p).1.1 + (occupied_box m p).2.1 = p.x + p.w - m ∧
      (occupied_box m p).1.2 + (occupied_box m p).2.2 = p.y + p.h - m) ∧
    List.Pairwise (fun p q =>
      do_boxes_intersect (size_box q) [occupied_box m p] = false) ps := by
  have hpl' : place_letters xd yd m sizes ks [] = some ps := hpl
  obtain ⟨_, _, _, h4⟩ := place_letters_invariant sizes ks [] ps hpl'
  constructor
  · intro p _
    rcases p with ⟨px, py, pw, ph⟩
    refine ⟨rfl, rfl, ?_, ?_⟩ <;>
      · simp only [occupied_box]
        ring
  · refine h4.imp ?_
    intro p q hfull
    rw [do_boxes_intersect_singleton]
    exact hfull

set_option maxRecDepth 8000 in
/-- Witness for C3 (corrected) on the concrete two-glyph scene. -/
theorem C3_amended_witness :
    create_random_image_letters 30 30 1 [(10, 10), (10, 10)] [0, 0] =
      some [⟨0, 0, 10, 10⟩, ⟨0, 10, 10, 10⟩] ∧
    ((∀ p ∈ [(⟨0, 0, 10, 10⟩ : Placement), ⟨0, 10, 10, 10⟩],
      (occupied_box 1 p).1.1 = p.x + 1 ∧
      (occupied_box 1 p).1.2 = p.y + 1 ∧
      (occupied_box 1 p).1.1 + (occupied_box 1 p).2.1 = p.x + p.w - 1 ∧
      (occupied_box 1 p).1.2 + (occupied_box 1 p).2.2 = p.y + p.h - 1) ∧
    List.Pairwise (fun p q =>
      do_boxes_intersect (size_box q) [occupied_box 1 p] = false)
      [(⟨0, 0, 10, 10⟩ : Placement), ⟨0, 10, 10, 10⟩]) :=
  ⟨by decide, @C3_amended 30 30 1 [(10, 10), (10, 10)] [0, 0]
    [⟨0, 0, 10, 10⟩, ⟨0, 10, 10, 10⟩] (by decide)⟩

/-! ## Claim C2: the candidate anchor ranges are half-open, not inclusive -/

/-- C2 counterexample: with a 1×1 box on a 2×2 canvas and one far-away
occupied region, the code's candidate set is `[(0, 0)]` (Python `range` is
half-open), while the claimed inclusive ranges would give all four anchors
`(0,0), (0,1), (1,0), (1,1)` — in particular `(1, 1)` is claimed valid but
is not a candidate. -/
theorem C2_counterexample :
    valid_box_anchors 1 1 2 2 [((10, 10), (1, 1))] = [(0, 0)] ∧
    spec_candidate_anchors 1 1 2 2 [((10, 10), (1, 1))] =
      [(0, 0), (0, 1), (1, 0), (1, 1)] ∧
    valid_box_anchors 1 1 2 2 [((10, 10), (1, 1))] ≠
      spec_candidate_anchors 1 1 2 2 [((10, 10), (1, 1))] := by
  decide

/-- C2 (corrected): the candidate set is exactly every integer anchor
`(x, y)` with `x` in the half-open range `[0, canvas_width - box_width)`
and `y` in `[0, canvas_height - box_height)` whose candidate box does not
intersect any occupied region; the candidate list has no duplicates (so
`random.choice` draws uniformly among exactly these anchors), and any
returned anchor belongs to it. -/
theorem C2_amended (w h xd yd : Int) (occ : List Box) :
    (∀ x y : Int, ((x, y) ∈ valid_box_anchors w h xd yd occ ↔
        0 ≤ x ∧ x < xd - w ∧ 0 ≤ y ∧ y < yd - h ∧
        do_boxes_intersect ((x, y), (w, h)) occ = false)) ∧
    (valid_box_anchors w h xd yd occ).Nodup ∧
    (∀ (k : Nat) (xy : Int × Int),
      random_anchor w h xd yd (some occ) k = .ok xy →
      xy ∈ valid_box_anchors w h xd yd occ) :=
  ⟨fun _ _ => mem_valid_box_anchors, valid_box_anchors_nodup,
    fun _ _ hok => random_anchor_some_ok_mem hok⟩

/-- Witness for C2 (corrected) at the counterexample's concrete input. -/
theorem C2_amended_witness :
    ((0, 0) ∈ valid_box_anchors 1 1 2 2 [((10, 10), (1, 1))]) ∧
    ¬((1, 1) ∈ valid_box_anchors 1 1 2 2 [((10, 10), (1, 1))]) := by
  constructor
  · exact ((C2_amended 1 1 2 2 [((10, 10), (1, 1))]).1 0 0).mpr (by decide)
  · intro hmem
    have hc := ((C2_amended 1 1 2 2 [((10, 10), (1, 1))]).1 1 1).mp hmem
    exact absurd hc (by decide)

/-! ## Claim C5: exhausted placement raises IndexError, not NoValidAnchorError -/

/-- C5 (code bug): when no anchor satisfies the constraint the candidate
list is empty and `random.choice` raises a bare `IndexError`; the code
does fail rather than wrap around or return a position, but not with the
distinct `NoValidAnchorError` the spec requires. -/
theorem C5_empty_anchor_raises_index_error {w h xd yd : Int} {occ : List Box}
    (hempty : valid_box_anchors w h xd yd occ = []) (k : Nat) :
    random_anchor w h xd yd (some occ) k = .error .indexError ∧
    random_anchor w h xd yd (some occ) k ≠ .error .noValidAnchorError := by
  constructor <;> simp [random_anchor, hempty, py_choice]

/-- Witness for C5: a 1×1 box on a 2×2 canvas fully blocked by an
occupied region, so the candidate list is empty. -/
theorem C5_empty_anchor_raises_index_error_witness :
    valid_box_anchors 1 1 2 2 [((0, 0), (2, 2))] = [] ∧
    (random_anchor 1 1 2 2 (some [((0, 0), (2, 2))]) 0 = .error .indexError ∧
     random_anchor 1 1 2 2 (some [((0, 0), (2, 2))]) 0 ≠ .error .noValidAnchorError) :=
  ⟨by decide, C5_empty_anchor_raises_index_error (by decide) 0⟩

/-! ## Claim C4: the predicate does not miss containment overlaps -/

/-- Helper for C4: if box `A` covers at least one pixel and every pixel of
`A` is a pixel of `B`, then the predicate reports an intersection. -/
theorem hit_of_subset_points (A B : Box) (hne : (box_points A).Nonempty)
    (hsub : box_points A ⊆ box_points B) :
    do_boxes_intersect A [B] = true := by
  rcases A with ⟨⟨ax, ay⟩, aw, ah⟩
  rcases B with ⟨⟨bx, bY⟩, bw, bh⟩
  obtain ⟨⟨px, pY⟩, hp⟩ := hne
  simp only [box_points, Set.mem_setOf_eq] at hp
  have hcorner : ((ax, ay) : Int × Int) ∈ box_points ((ax, ay), (aw, ah)) := by
    simp only [box_points, Set.mem_setOf_eq]
    omega
  have hB := hsub hcorner
  simp only [box_points, Set.mem_setOf_eq] at hB
  rw [do_boxes_intersect_singleton, boxes_hit_iff]
  dsimp only
  omega

/-- C4 counterexample (refuting the existential as stated): there is NO
pair of boxes `A`, `B` with `B` fully containing a nonempty `A` on which
`do_boxes_intersect(A, B)` returns false; the corner-containment test
cannot miss a containment overlap. -/
theorem C4_counterexample :
    ¬ ∃ A B : Box, (box_points A).Nonempty ∧ box_points A ⊆ box_points B ∧
      do_boxes_intersect A [B] = false := by
  rintro ⟨A, B, hne, hsub, hfalse⟩
  rw [hit_of_subset_points A B hne hsub] at hfalse
  cases hfalse

/-- C4 (corrected): for every pair of axis-aligned boxes where `B` fully
contains a nonempty `A`, `do_boxes_intersect(A, B)` returns true — the
corner-containment test is not weaker than interval overlap on real
(nonnegative-size) boxes. -/
theorem C4_amended (A B : Box) (hne : (box_points A).Nonempty)
    (hsub : box_points A ⊆ box_points B) :
    do_boxes_intersect A [B] = true :=
  hit_of_subset_points A B hne hsub

/-- Witness for C4 (corrected): `A = ((1,1),(1,1))` inside
`B = ((0,0),(3,3))`. -/
theorem C4_amended_witness :
    (box_points (((1, 1), (1, 1)) : Box)).Nonempty ∧
    box_points (((1, 1), (1, 1)) : Box) ⊆ box_points (((0, 0), (3, 3)) : Box) ∧
    do_boxes_intersect (((1, 1), (1, 1)) : Box) [(((0, 0), (3, 3)) : Box)] = true := by
  have hne : (box_points (((1, 1), (1, 1)) : Box)).Nonempty := by
    refine ⟨(1, 1), ?_⟩
    simp only [box_points, Set.mem_setOf_eq]
    omega
  have hsub : box_points (((1, 1), (1, 1)) : Box) ⊆ box_points (((0, 0), (3, 3)) : Box) := by
    intro p hp
    simp only [box_points, Set.mem_setOf_eq] at hp ⊢
    omega
  exact ⟨hne, hsub, C4_amended _ _ hne hsub⟩

/-! ## Claim C6: empty contour list raises IndexError, not NoContoursError -/

/-- C6 (code bug): on a mask with zero foreground contours the code
evaluates `contours[0]`, raising a bare `IndexError` rather than the
distinct `NoContoursError` the spec requires (no undefined value is
propagated, but the error kind is not distinct). -/
theorem C6_no_contours_raises_index_error :
    max_bounding_box [] = .error .indexError ∧
    max_bounding_box [] ≠ .error .noContoursError := by
  refine ⟨rfl, ?_⟩
  intro hc
  rw [show max_bounding_box [] = .error .indexError from rfl] at hc
  exact PyError.noConfusion (Except.error.inj hc)

/-! ## Claim C8: the contour-box union is the componentwise min/max -/

/-- Folding `mbb_step` only shrinks the running min and grows the running
max, bounds every rectangle folded over, and leaves each component either
at its seed value or at a value attained by some rectangle. -/
theorem mbb_foldl_spec (l : List Rect) (acc : (Int × Int) × (Int × Int)) :
    ((l.foldl mbb_step acc).1.1 ≤ acc.1.1 ∧ (l.foldl mbb_step acc).1.2 ≤ acc.1.2 ∧
      acc.2.1 ≤ (l.foldl mbb_step acc).2.1 ∧ acc.2.2 ≤ (l.foldl mbb_step acc).2.2) ∧
    (∀ r ∈ l, (l.foldl mbb_step acc).1.1 ≤ r.x ∧ (l.foldl mbb_step acc).1.2 ≤ r.y ∧
      r.x + r.w ≤ (l.foldl mbb_step acc).2.1 ∧ r.y + r.h ≤ (l.foldl mbb_step acc).2.2) ∧
    ((l.foldl mbb_step acc).1.1 = acc.1.1 ∨ ∃ r ∈ l, (l.foldl mbb_step acc).1.1 = r.x) ∧
    ((l.foldl mbb_step acc).1.2 = acc.1.2 ∨ ∃ r ∈ l, (l.foldl mbb_step acc).1.2 = r.y) ∧
    ((l.foldl mbb_step acc).2.1 = acc.2.1 ∨
      ∃ r ∈ l, (l.foldl mbb_step acc).2.1 = r.x + r.w) ∧
    ((l.foldl mbb_step acc).2.2 = acc.2.2 ∨
      ∃ r ∈ l, (l.foldl mbb_step acc).2.2 = r.y + r.h) := by
  induction l generalizing acc with
  | nil => simp
  | cons r0 l ih =>
    simp only [List.foldl_cons]
    obtain ⟨⟨m1, m2, m3, m4⟩, hb, a1, a2, a3, a4⟩ := ih (mbb_step acc r0)
    have e1 : (mbb_step acc r0).1.1 = min r0.x acc.1.1 := rfl
    have e2 : (mbb_step acc r0).1.2 = min r0.y acc.1.2 := rfl
    have e3 : (mbb_step acc r0).2.1 = max (r0.x + r0.w) acc.2.1 := rfl
    have e4 : (mbb_step acc r0).2.2 = max (r0.y + r0.h) acc.2.2 := rfl
    refine ⟨⟨by omega, by omega, by omega, by omega⟩, ?_, ?_, ?_, ?_, ?_⟩
    · intro r hr
      rcases List.mem_cons.mp hr with rfl | hr'
      · exact ⟨by omega, by omega, by omega, by omega⟩
      · exact hb r hr'
    · rcases a1 with ha | ⟨r, hr, ha⟩
      · rw [ha, e1]
        rcases le_total r0.x acc.1.1 with hle | hle
        · exact Or.inr ⟨r0, List.mem_cons_self _ _, (min_eq_left hle).symm ▸ rfl⟩
        · exact Or.inl (min_eq_right hle)
      · exact Or.inr ⟨r, List.mem_cons_of_mem _ hr, ha⟩
    · rcases a2 with ha | ⟨r, hr, ha⟩
      · rw [ha, e2]
        rcases le_total r0.y acc.1.2 with hle | hle
        · exact Or.inr ⟨r0, List.mem_cons_self _ _, (min_eq_left hle).symm ▸ rfl⟩
        · exact Or.inl (min_eq_right hle)
      · exact Or.inr ⟨r, List.mem_cons_of_mem _ hr, ha⟩
    · rcases a3 with ha | ⟨r, hr, ha⟩
      · rw [ha, e3]
        rcases le_total (r0.x + r0.w) acc.2.1 with hle | hle
        · exact Or.inl (max_eq_right hle)
        · exact Or.inr ⟨r0, List.mem_cons_self _ _, (max_eq_left hle).symm ▸ rfl⟩
      · exact Or.inr ⟨r, List.mem_cons_of_mem _ hr, ha⟩
    · rcases a4 with ha | ⟨r, hr, ha⟩
      · rw [ha, e4]
        rcases le_total (r0.y + r0.h) acc.2.2 with hle | hle
        · exact Or.inl (max_eq_right hle)
        · exact Or.inr ⟨r0, List.mem_cons_self _ _, (max_eq_left hle).symm ▸ rfl⟩
      · exact Or.inr ⟨r, List.mem_cons_of_mem _ hr, ha⟩

/-- C8 (confirmed): on a nonempty contour list, `max_bounding_box` returns
`((xmin, ymin), (xmax, ymax))` where `xmin`/`ymin` are the running minima
of the top-left coordinates and `xmax`/`ymax` the running maxima of the
bottom-right coordinates over all contour boxes, seeded by the first
contour's box (each component is attained by a contour, so there is no
implicit zero-box start). -/
theorem C8_union_bounding_box (rects : List Rect) (hne : rects ≠ []) :
    ∃ xmin ymin xmax ymax,
      max_bounding_box rects = .ok ((xmin, ymin), (xmax, ymax)) ∧
      (∀ r ∈ rects, xmin ≤ r.x ∧ ymin ≤ r.y ∧
        r.x + r.w ≤ xmax ∧ r.y + r.h ≤ ymax) ∧
      (∃ r ∈ rects, xmin = r.x) ∧ (∃ r ∈ rects, ymin = r.y) ∧
      (∃ r ∈ rects, xmax = r.x + r.w) ∧ (∃ r ∈ rects, ymax = r.y + r.h) := by
  cases rects with
  | nil => exact absurd rfl hne
  | cons r0 l =>
    obtain ⟨_, hb, a1, a2, a3, a4⟩ :=
      mbb_foldl_spec (r0 :: l) ((r0.x, r0.y), (r0.x + r0.w, r0.y + r0.h))
    refine ⟨_, _, _, _, rfl, hb, ?_, ?_, ?_, ?_⟩
    · rcases a1 with ha | ha
      · exact ⟨r0, List.mem_cons_self _ _, ha⟩
      · exact ha
    · rcases a2 with ha | ha
      · exact ⟨r0, List.mem_cons_self _ _, ha⟩
      · exact ha
    · rcases a3 with ha | ha
      · exact ⟨r0, List.mem_cons_self _ _, ha⟩
      · exact ha
    · rcases a4 with ha | ha
      · exact ⟨r0, List.mem_cons_self _ _, ha⟩
      · exact ha

/-- Witness for C8 on two concrete contour rectangles. -/
theorem C8_union_bounding_box_witness :
    ([⟨0, 0, 2, 2⟩, ⟨1, 1, 3, 3⟩] : List Rect) ≠ [] ∧
    (∃ xmin ymin xmax ymax,
      max_bounding_box [⟨0, 0, 2, 2⟩, ⟨1, 1, 3, 3⟩] = .ok ((xmin, ymin), (xmax, ymax)) ∧
      (∀ r ∈ ([⟨0, 0, 2, 2⟩, ⟨1, 1, 3, 3⟩] : List Rect), xmin ≤ r.x ∧ ymin ≤ r.y ∧
        r.x + r.w ≤ xmax ∧ r.y + r.h ≤ ymax) ∧
      (∃ r ∈ ([⟨0, 0, 2, 2⟩, ⟨1, 1, 3, 3⟩] : List Rect), xmin = r.x) ∧
      (∃ r ∈ ([⟨0, 0, 2, 2⟩, ⟨1, 1, 3, 3⟩] : List Rect), ymin = r.y) ∧
      (∃ r ∈ ([⟨0, 0, 2, 2⟩, ⟨1, 1, 3, 3⟩] : List Rect), xmax = r.x + r.w) ∧
      (∃ r ∈ ([⟨0, 0, 2, 2⟩, ⟨1, 1, 3, 3⟩] : List Rect), ymax = r.y + r.h)) :=
  ⟨by decide, C8_union_bounding_box [⟨0, 0, 2, 2⟩, ⟨1, 1, 3, 3⟩] (by decide)⟩

/-! ## Claim C7: the color sampler and its cache -/

theorem mem_valid_colors {mb : Int} {c : Nat × Nat × Nat} :
    c ∈ valid_colors mb ↔
      c.1 < 255 ∧ c.2.1 < 255 ∧ c.2.2 < 255 ∧
      ((c.1 + c.2.1 + c.2.2 : Nat) : Int) < mb := by
  rcases c with ⟨r, g, b⟩
  simp only [valid_colors, List.mem_flatMap, List.mem_map, List.mem_filter,
    List.mem_range, decide_eq_true_eq, Prod.mk.injEq]
  constructor
  · rintro ⟨r', hr', g', hg', b', ⟨hb', hsum⟩, rfl, rfl, rfl⟩
    exact ⟨hr', hg', hb', hsum⟩
  · rintro ⟨hr, hg, hb, hsum⟩
    exact ⟨r, hr, g, hg, b, ⟨hb, hsum⟩, rfl, rfl, rfl⟩

theorem valid_colors_nodup {mb : Int} : (valid_colors mb).Nodup := by
  rw [valid_colors, List.nodup_flatMap]
  refine ⟨fun r _ => ?_, ?_⟩
  · rw [List.nodup_flatMap]
    refine ⟨fun g _ => ?_, ?_⟩
    · exact ((List.nodup_range _).filter _).map
        (fun a b hab => congrArg (fun t => t.2.2) hab)
    · refine (List.nodup_range _).imp_of_mem ?_
      intro g1 g2 _ _ hne p hp1 hp2
      simp only [List.mem_map, List.mem_filter] at hp1 hp2
      obtain ⟨b1, _, rfl⟩ := hp1
      obtain ⟨b2, _, h2⟩ := hp2
      exact hne (congrArg (fun t => t.2.1) h2.symm)
  · refine (List.nodup_range _).imp_of_mem ?_
    intro r1 r2 _ _ hne p hp1 hp2
    simp only [List.mem_flatMap, List.mem_map, List.mem_filter] at hp1 hp2
    obtain ⟨g1, _, b1, _, rfl⟩ := hp1
    obtain ⟨g2, _, b2, _, h2⟩ := hp2
    exact hne (congrArg (fun t => t.1) h2.symm)

/-- Looking up a key in the cache: unfolding lemma for the `some` case. -/
theorem random_color_cached {mb : Int} {cache : ColorCache} {k : Nat}
    {colors : List (Nat × Nat × Nat)} (hl : List.lookup mb cache = some colors) :
    random_color mb cache k = (py_choice colors k, cache) := by
  simp [random_color, hl]

/-- Unfolding lemma for `random_color` when the key is absent. -/
theorem random_color_uncached {mb : Int} {cache : ColorCache} {k : Nat}
    (hl : List.lookup mb cache = none) :
    random_color mb cache k =
      (py_choice (valid_colors mb) k, (mb, valid_colors mb) :: cache) := by
  simp [random_color, hl]

/-- In a well-formed cache, a successful lookup returns exactly the
valid-color list of its key. -/
theorem lookup_eq_valid_colors {cache : ColorCache} {mb : Int}
    {colors : List (Nat × Nat × Nat)} (hwf : CacheWF cache)
    (h : List.lookup mb cache = some colors) : colors = valid_colors mb := by
  induction cache with
  | nil => simp [List.lookup] at h
  | cons e cache ih =>
    rcases e with ⟨key, v⟩
    cases hk : (mb == key) with
    | true =>
      have hkey : mb = key := by
        have hb := hk
        simpa using hb
      have hv : v = colors := by
        simp only [List.lookup, hk] at h
        exact Option.some.inj h
      have hwfe := hwf (key, v) (List.mem_cons_self _ _)
      simp only at hwfe
      rw [← hv, hwfe, hkey]
    | false =>
      have h' : List.lookup mb cache = some colors := by
        simpa only [List.lookup, hk] using h
      exact ih (fun e he => hwf e (List.mem_cons_of_mem _ he)) h'

/-- C7 (confirmed): for every `max_brightness` whose valid-color set is
nonempty and any well-formed cache state, `random_color` returns a triple
with each channel in `[0, 255)` and channel sum below the brightness
bound, drawn (by `random.choice`) from the full duplicate-free list of
valid triples; afterwards the cache maps this brightness to exactly that
list, stays well formed, and a second call with the same brightness leaves
the cache untouched (no recomputation). -/
theorem C7_color_sampler (mb : Int) (cache : ColorCache) (k1 k2 : Nat)
    (hwf : CacheWF cache) (hne : valid_colors mb ≠ []) :
    (∃ c, (random_color mb cache k1).1 = .ok c ∧ c ∈ valid_colors mb ∧
      c.1 < 255 ∧ c.2.1 < 255 ∧ c.2.2 < 255 ∧
      ((c.1 + c.2.1 + c.2.2 : Nat) : Int) < mb) ∧
    List.lookup mb (random_color mb cache k1).2 = some (valid_colors mb) ∧
    CacheWF (random_color mb cache k1).2 ∧
    (random_color mb ((random_color mb cache k1).2) k2).2 =
      (random_color mb cache k1).2 ∧
    (valid_colors mb).Nodup := by
  have hchoice : ∀ k : Nat, ∃ c, py_choice (valid_colors mb) k = .ok c ∧
      c ∈ valid_colors mb := by
    intro k
    cases hvc : valid_colors mb with
    | nil => exact absurd hvc hne
    | cons a rest => exact ⟨_, rfl, List.get_mem _ _ _⟩
  have hmain : List.lookup mb (random_color mb cache k1).2 = some (valid_colors mb) ∧
      CacheWF (random_color mb cache k1).2 ∧
      (random_color mb cache k1).1 = py_choice (valid_colors mb) k1 := by
    cases hl : List.lookup mb cache with
    | none =>
      rw [random_color_uncached hl]
      refine ⟨by simp [List.lookup], ?_, rfl⟩
      intro e he
      rcases List.mem_cons.mp he with rfl | he'
      · rfl
      · exact hwf e he'
    | some colors =>
      have hcol : colors = valid_colors mb := lookup_eq_valid_colors hwf hl
      subst hcol
      rw [random_color_cached hl]
      exact ⟨hl, hwf, rfl⟩
  obtain ⟨hlook, hwf', hres⟩ := hmain
  refine ⟨?_, hlook, hwf', ?_, valid_colors_nodup⟩
  · obtain ⟨c, hc, hcmem⟩ := hchoice k1
    refine ⟨c, by rw [hres, hc], hcmem, ?_⟩
    exact mem_valid_colors.mp hcmem
  · rw [random_color_cached hlook]

/-- Witness for C7: brightness 1 on the empty cache; the only valid color
is `(0, 0, 0)`. -/
theorem C7_color_sampler_witness :
    CacheWF [] ∧ valid_colors 1 ≠ [] ∧
    ((∃ c, (random_color 1 [] 0).1 = .ok c ∧ c ∈ valid_colors 1 ∧
      c.1 < 255 ∧ c.2.1 < 255 ∧ c.2.2 < 255 ∧
      ((c.1 + c.2.1 + c.2.2 : Nat) : Int) < 1) ∧
    List.lookup 1 (random_color 1 [] 0).2 = some (valid_colors 1) ∧
    CacheWF (random_color 1 [] 0).2 ∧
    (random_color 1 ((random_color 1 [] 0).2) 0).2 = (random_color 1 [] 0).2 ∧
    (valid_colors 1).Nodup) := by
  have hwf : CacheWF [] := by
    intro e he
    cases he
  have hne : valid_colors 1 ≠ [] := by
    have hm : ((0, 0, 0) : Nat × Nat × Nat) ∈ valid_colors 1 :=
      mem_valid_colors.mpr (by decide)
    exact List.ne_nil_of_mem hm
  exact ⟨hwf, hne, C7_color_sampler 1 [] 0 0 hwf hne⟩

/-! ## Claim C10: the shared alpha weight and IEEE binary64 rounding -/

/-- The exact value of line 310's expression lies in `[1 - max_alpha, 1)`
for `max_alpha > 0` and `r ∈ [0, 1)`. -/
theorem scene_alpha_exact_range (max_alpha r : ℚ) (hma : 0 < max_alpha)
    (hr0 : 0 ≤ r) (hr1 : r < 1) :
    1 - max_alpha ≤ scene_alpha max_alpha r ∧ scene_alpha max_alpha r < 1 := by
  constructor
  · have h : 0 ≤ r * max_alpha := mul_nonneg hr0 hma.le
    rw [scene_alpha]
    linarith
  · have h : r * max_alpha < 1 * max_alpha := mul_lt_mul_of_pos_right hr1 hma
    rw [scene_alpha]
    linarith

set_option maxRecDepth 20000 in
/-- Evaluating line 310 in binary64 at the default `max_alpha = 0.2`
(the double `7205759403792794 * 2 ^ (-55)`) and the largest value
`random.random()` can return, `r = (2 ^ 53 - 1) * 2 ^ (-53) = 1 - 2 ^ (-53)`:
the two roundings accumulate and the final sum `1 + 2 ^ (-55)` (exactly)
rounds DOWN to exactly `2 ^ 52 * 2 ^ (-52) = 1`. -/
theorem scene_alpha_float_default_top :
    scene_alpha_float (7205759403792794, -55) (9007199254740991, -53) =
      (4503599627370496, -52) := by
  decide

/-- The dyadic `4503599627370496 * 2 ^ (-52)` is exactly `1`. -/
theorem dval_two_pow_52 : dval ((4503599627370496 : Int), (-52 : Int)) = 1 := by
  rw [dval]
  norm_num

/-- C10 counterexample: the program computes line 310 in IEEE-754
binary64.  At the default `max_alpha = 0.2` — whose double has mantissa
`7205759403792794` (pinned below: 53-bit and the nearest multiple of
`2 ^ (-55)` to `1/5`, since `|5 * 7205759403792794 - 2 ^ 55| ≤ 2 < 5/2`) —
and `r = 9007199254740991 * 2 ^ (-53) = 1 - 2 ^ (-53)`, a value
`random.random()` can return, the computed alpha is EXACTLY `1`, so the
claimed strict bound `alpha < 1` is false of the program. -/
theorem C10_counterexample :
    ((2 : Int) ^ 52 < 7205759403792794 ∧ (7205759403792794 : Int) < 2 ^ 53 ∧
      ((5 * 7205759403792794 - 2 ^ 55 : Int)).natAbs ≤ 2) ∧
    (9007199254740991 : Int) = 2 ^ 53 - 1 ∧
    scene_alpha_float (7205759403792794, -55) (9007199254740991, -53) =
      (4503599627370496, -52) ∧
    dval (scene_alpha_float (7205759403792794, -55) (9007199254740991, -53)) = 1 ∧
    ¬ dval (scene_alpha_float (7205759403792794, -55) (9007199254740991, -53)) < 1 := by
  have hval : dval (scene_alpha_float (7205759403792794, -55) (9007199254740991, -53)) = 1 := by
    rw [scene_alpha_float_default_top]
    exact dval_two_pow_52
  refine ⟨by decide, by decide, scene_alpha_float_default_top, hval, ?_⟩
  rw [hval]
  exact lt_irrefl 1

/-- C10 (corrected): for `max_alpha > 0` and a `random.random()` draw
`r ∈ [0, 1)`, the EXACT value of `r * max_alpha + (1 - max_alpha)` always
lies in `[1 - max_alpha, 1)` — so the configured `max_alpha` bounds the
exact value's distance below 1 — but the program evaluates the expression
in IEEE-754 binary64, where rounding can push the computed alpha to
exactly `1.0`: at the default `max_alpha = 0.2` with `r = 1 - 2 ^ (-53)`
the computed double equals `1`.  The claimed half-open interval holds of
the exact value only; the computed value attains the upper end `1`. -/
theorem C10_amended (max_alpha r : ℚ) (hma : 0 < max_alpha)
    (hr0 : 0 ≤ r) (hr1 : r < 1) :
    (1 - max_alpha ≤ scene_alpha max_alpha r ∧ scene_alpha max_alpha r < 1) ∧
    dval (scene_alpha_float (7205759403792794, -55) (9007199254740991, -53)) = 1 := by
  refine ⟨scene_alpha_exact_range max_alpha r hma hr0 hr1, ?_⟩
  rw [scene_alpha_float_default_top]
  exact dval_two_pow_52

/-- Witness for C10 (corrected) at `max_alpha = 1`, `r = 0`. -/
theorem C10_amended_witness :
    (0 : ℚ) < 1 ∧ (0 : ℚ) ≤ 0 ∧ (0 : ℚ) < 1 ∧
    ((1 - 1 ≤ scene_alpha 1 0 ∧ scene_alpha 1 0 < 1) ∧
      dval (scene_alpha_float (7205759403792794, -55) (9007199254740991, -53)) = 1) :=
  ⟨by decide, by decide, by decide, C10_amended 1 0 (by decide) (by decide) (by decide)⟩

end MnistMask
